import Mathlib

/-!
# Verification of the agent dependency graph and cascading-propagation engine

Shallow embedding of the core of the `os_k8s_agent_system` repository:

* `core/base_agent.py` — `BaseAgent.register_downstream`,
  `BaseAgent.propagate_to_downstream`, `AgentRegistry.register`;
* `core/models.py` — `Config.switch_to_fallback_key`, `Config.get_active_api_key`;
* `core/api_utils.py` — `execute_with_fallback`;
* `agents/kubernetes_agent.py`, `agents/database_agent.py`, `agents/os_agent.py`
  — `analyze_upstream_impact`;
* `agents/os_agent.py` — `_load_from_cache`, `_save_to_cache`.

Python dictionaries are modelled as insertion-ordered association lists
(`dictGet` / `dictSet` reproduce `d[k]` lookup and `d[k] = v` assignment,
which updates in place when the key exists and appends otherwise).
Python values flowing through the cascade are modelled by the inductive
type `PyVal`.  External effects (the LLM reasoning call, knowledge-base
retrieval, JSON parsing of the raw LLM text) are oracle parameters: the
embedding takes their outcome as an argument, mirroring the repository's
interface boundary.  A Python function that can raise is embedded with an
`Except String` codomain; a function whose `try`/`except` swallows every
exception is embedded as a total function.
-/

/-- A Python value, as passed between agents (JSON-representable data). -/
inductive PyVal : Type where
  | none : PyVal
  | bool : Bool → PyVal
  | int : Int → PyVal
  | str : String → PyVal
  | list : List PyVal → PyVal
  | dict : List (String × PyVal) → PyVal

/-- Python `d.get(key)` / `d[key]` lookup on an insertion-ordered dict. -/
def dictGet {α : Type} : List (String × α) → String → Option α
  | [], _ => Option.none
  | (k, v) :: rest, key => if k = key then Option.some v else dictGet rest key

/-- Python `d[key] = val`: update in place when the key exists, append
otherwise (CPython dicts preserve insertion order). -/
def dictSet {α : Type} : List (String × α) → String → α → List (String × α)
  | [], key, val => [(key, val)]
  | (k, v) :: rest, key, val =>
      if k = key then (k, val) :: rest else (k, v) :: dictSet rest key val

/-- Python `d.get(key, default)`. -/
def dictGetD {α : Type} (d : List (String × α)) (key : String) (dflt : α) : α :=
  (dictGet d key).getD dflt

/-- Python truthiness of a value (`if downstream_changes:`). -/
def pyTruthy : PyVal → Bool
  | .none => false
  | .bool b => b
  | .int n => n ≠ 0
  | .str s => s ≠ ""
  | .list xs => !xs.isEmpty
  | .dict kvs => !kvs.isEmpty

/-- The elements of a Python list value (the embedding assumes list-shaped
fields where the source iterates). -/
def pyElems : PyVal → List PyVal
  | .list xs => xs
  | _ => []

/--
A specialist node of `base_agent.py`:
`agent_name`, the behaviour of `analyze_upstream_impact` (a function from
the upstream-changes argument to either a result dict or a raised
exception's message), and the `_downstream_agents` list in registration
order.  `analyze_upstream_impact` returns a dict in every concrete agent,
so its embedded codomain is the dict's entry list.
-/
inductive Agent : Type where
  | mk : String → (PyVal → Except String (List (String × PyVal))) → List Agent → Agent

/-- `self.agent_name`. -/
def Agent.name : Agent → String
  | .mk n _ _ => n

/-- The behaviour of `analyze_upstream_impact` on this agent. -/
def Agent.analyze : Agent → PyVal → Except String (List (String × PyVal))
  | .mk _ f _, c => f c

/-- `self._downstream_agents` (`get_downstream_agents`). -/
def Agent.downstream : Agent → List Agent
  | .mk _ _ ds => ds

mutual

/--
One iteration of the `for downstream_agent in self._downstream_agents`
loop body of `BaseAgent.propagate_to_downstream`: call
`analyze_upstream_impact`; on success, if `result.get('changes', [])` is
truthy and the consumer has downstream agents, attach the nested cascade
under the `'downstream'` key; on an exception, record
`{"error": str(e), "impacts": []}`.
-/
def entryVal (d : Agent) (changes : PyVal) : PyVal :=
  match d with
  | .mk _ f ds =>
      match f changes with
      | .error e => PyVal.dict [("error", .str e), ("impacts", .list [])]
      | .ok result =>
          let downstreamChanges := dictGetD result "changes" (.list [])
          if pyTruthy downstreamChanges && !ds.isEmpty then
            PyVal.dict
              (dictSet result "downstream" (.dict (propagateList ds downstreamChanges [])))
          else
            PyVal.dict result

/--
The loop of `BaseAgent.propagate_to_downstream`, building
`downstream_results` (the accumulator) by
`downstream_results[downstream_agent.agent_name] = ...` in registration
order.
-/
def propagateList (ds : List Agent) (changes : PyVal)
    (acc : List (String × PyVal)) : List (String × PyVal) :=
  match ds with
  | [] => acc
  | d :: rest =>
      propagateList rest changes (dictSet acc d.name (entryVal d changes))

end

/--
`BaseAgent.propagate_to_downstream(my_changes)`: returns `{}` immediately
when `_downstream_agents` is empty, otherwise runs the loop.  The whole
loop body sits inside `try`/`except Exception`, so the method never
re-raises: it is embedded as a total function.
-/
def propagate_to_downstream (a : Agent) (my_changes : PyVal) :
    List (String × PyVal) :=
  if a.downstream.isEmpty then [] else propagateList a.downstream my_changes []

/--
`BaseAgent.register_downstream(agent)`:
`if agent not in self._downstream_agents: self._downstream_agents.append(agent)`.
`BaseAgent` defines no `__eq__`, so Python's `in` compares object
identity; the element type is abstract with decidable (identity)
equality.
-/
def register_downstream {α : Type} [DecidableEq α] (ds : List α) (a : α) : List α :=
  if a ∈ ds then ds else ds ++ [a]

/--
`AgentRegistry.register(agent)`: `self._agents[agent.agent_name] = agent`.
The registry is the name-keyed dict `_agents`; the stored agent is
abstract.  The codomain is `Except String` so that a claimed failure mode
is expressible; the source's dict assignment always succeeds (it silently
replaces any agent already registered under the same name).
-/
def AgentRegistry.register {α : Type} (agents : List (String × α))
    (agent_name : String) (agent : α) : Except String (List (String × α)) :=
  .ok (dictSet agents agent_name agent)

/-- `AgentRegistry.get_agent(name)`: `self._agents.get(name)`. -/
def AgentRegistry.get_agent {α : Type} (agents : List (String × α))
    (name : String) : Option α :=
  dictGet agents name

/--
`Config`: the API-key state of `core/models.py` (the fields read and
written by `switch_to_fallback_key`, `get_active_api_key` and
`execute_with_fallback`).
-/
structure Config : Type where
  openai_api_key : Option String
  current_api_key : Option String
  fallback_api_keys : List String
deriving DecidableEq

/--
`Config.switch_to_fallback_key()`: when `fallback_api_keys` is non-empty,
pop its first element, install it as `current_api_key` (and
`openai_api_key`) and return `True`; otherwise return `False` and leave
the config unchanged.
-/
def Config.switch_to_fallback_key (c : Config) : Bool × Config :=
  match c.fallback_api_keys with
  | [] => (false, c)
  | k :: rest =>
      (true, { openai_api_key := Option.some k,
               current_api_key := Option.some k,
               fallback_api_keys := rest })

/-- `Config.get_active_api_key()`: `return self.current_api_key`. -/
def Config.get_active_api_key (c : Config) : Option String :=
  c.current_api_key

/-- Python `str.lower()` on one character code (ASCII case folding — the
range error messages exercise). -/
def lowerCode (n : Nat) : Nat := if 65 ≤ n ∧ n ≤ 90 then n + 32 else n

/-- The character codes of `str(e).lower()`. -/
def strCodesLower (s : String) : List Nat :=
  s.toList.map (fun c => lowerCode c.toNat)

/-- Python `pat in text` (substring occurrence), on character-code
lists. -/
def codesContain (t p : List Nat) : Bool :=
  if p.isPrefixOf t then true
  else
    match t with
    | [] => false
    | _ :: rest => codesContain rest p

/-- The fixed credential-error markers of `execute_with_fallback`. -/
def credentialMarkers : List String :=
  ["rate limit", "quota", "insufficient", "limit exceeded"]

/-- `any(keyword in error_msg for keyword in [...])` with
`error_msg = str(e).lower()`. -/
def isCredentialError (e : String) : Bool :=
  credentialMarkers.any
    (fun m => codesContain (strCodesLower e) (m.toList.map Char.toNat))

/--
The `while attempts < max_attempts` loop of `execute_with_fallback`.
`call i` is the outcome of the `i`-th invocation of `llm_callable` (the
LLM call is an external effect; reinitialising the agent's `llm` object
after a key switch is part of that boundary).  `fuel` is
`max_attempts - attempts`; `last` is `last_exception`.  On success the
result is returned; on a credential-classified failure the config
switches to a fallback key and the loop retries, or raises
`"All API keys exhausted"` when no fallback key remains; any other
failure is re-raised immediately.  The `fuel = 0` arm is the
`raise last_exception` after the loop, unreachable from
`execute_with_fallback` (see `execute_with_fallback_fst_error_iff`).
-/
def ewfGo {α : Type} (call : Nat → Except String α) :
    Nat → Nat → Config → Option String → Except String α × Config
  | 0, _, cfg, last => (.error (last.getD "None"), cfg)
  | fuel + 1, idx, cfg, _ =>
      match call idx with
      | .ok r => (.ok r, cfg)
      | .error e =>
          if isCredentialError e then
            match cfg.switch_to_fallback_key with
            | (true, cfg2) => ewfGo call fuel (idx + 1) cfg2 (Option.some e)
            | (false, cfg2) => (.error "All API keys exhausted", cfg2)
          else (.error e, cfg)

/--
`execute_with_fallback(config, llm_callable, ...)`:
`max_attempts = 1 + len(config.fallback_api_keys)` is computed once at
entry; returns the first successful result together with the final config
state, or the raised exception's message.
-/
def execute_with_fallback {α : Type} (cfg : Config)
    (call : Nat → Except String α) : Except String α × Config :=
  ewfGo call (1 + cfg.fallback_api_keys.length) 0 cfg Option.none

/-- `value.get(key, default)` on a Python value that the source treats as
a dict (`impact.get(...)`, `k8s_analysis.get('risk_assessment', {}).get(...)`);
theorems apply it only to dict-shaped values, where the source cannot
raise. -/
def pyGetD (v : PyVal) (key : String) (dflt : PyVal) : PyVal :=
  match v with
  | .dict kvs => dictGetD kvs key dflt
  | _ => dflt

/-- `_extract_actions(impacts)` (identical in the Kubernetes and Database
agents): `actions.extend(impact.get('required_actions', []))` over all
impacts. -/
def extract_actions (impacts : PyVal) : PyVal :=
  .list ((pyElems impacts).flatMap
    (fun impact => pyElems (pyGetD impact "required_actions" (.list []))))

/--
`KubernetesAgent.analyze_upstream_impact(upstream_changes)`.
Oracle parameters stand for the external boundary: `content` is the
stripped raw LLM text after code-fence extraction, `parse` is the outcome
of `json.loads(content)` (`.error` is a raised `JSONDecodeError`'s
message), `internal_sources` the internal-document sources found, `ds`
the agent's own `_downstream_agents`.  Empty upstream input returns the
fixed LOW result before any retrieval, prompting or LLM call happens.
-/
def kubernetes_analyze_upstream_impact (agent_name domain : String)
    (ds : List Agent) (content : String)
    (parse : Except String (List (String × PyVal)))
    (internal_sources : List String)
    (upstream_changes : List PyVal) : List (String × PyVal) :=
  if upstream_changes.isEmpty then
    [("impacts", .list []), ("required_actions", .list []),
     ("risk_level", .str "LOW")]
  else
    match parse with
    | .error e =>
        [("impacts", .list []), ("required_actions", .list []),
         ("risk_level", .str "UNKNOWN"), ("error", .str e),
         ("raw_response", .str (content.take 500))]
    | .ok k8s_analysis =>
        let impacts := dictGetD k8s_analysis "impacts" (.list [])
        let result : List (String × PyVal) :=
          [("impacts", impacts),
           ("required_actions", extract_actions impacts),
           ("risk_level",
             pyGetD (dictGetD k8s_analysis "risk_assessment" (.dict []))
               "overall_risk" (.str "MEDIUM")),
           ("internal_policy_conflicts",
             dictGetD k8s_analysis "internal_policy_conflicts" (.list [])),
           ("version_compatibility",
             dictGetD k8s_analysis "version_compatibility" (.dict [])),
           ("migration_timeline",
             dictGetD k8s_analysis "migration_timeline" (.dict [])),
           ("metadata", .dict
             [("agent_name", .str agent_name), ("domain", .str domain),
              ("upstream_changes_analyzed", .int upstream_changes.length),
              ("internal_docs_used", .int internal_sources.length),
              ("internal_doc_sources",
                .list (internal_sources.map PyVal.str))])]
        if !ds.isEmpty && pyTruthy impacts then
          dictSet result "downstream_impacts"
            (.dict (propagateList ds impacts []))
        else result

/--
`DatabaseAgent.analyze_upstream_impact(upstream_changes)`, with the same
oracle parameters as the Kubernetes agent (no downstream handling; on a
parse error the result carries `error` but no `raw_response`).
-/
def database_analyze_upstream_impact (agent_name domain : String)
    (parse : Except String (List (String × PyVal)))
    (upstream_changes : List PyVal) : List (String × PyVal) :=
  if upstream_changes.isEmpty then
    [("impacts", .list []), ("required_actions", .list []),
     ("risk_level", .str "LOW")]
  else
    match parse with
    | .error e =>
        [("impacts", .list []), ("required_actions", .list []),
         ("risk_level", .str "UNKNOWN"), ("error", .str e)]
    | .ok db_analysis =>
        let impacts := dictGetD db_analysis "impacts" (.list [])
        [("impacts", impacts),
         ("required_actions", extract_actions impacts),
         ("risk_level",
           pyGetD (dictGetD db_analysis "risk_assessment" (.dict []))
             "overall_risk" (.str "MEDIUM")),
         ("risk_assessment", dictGetD db_analysis "risk_assessment" (.dict [])),
         ("metadata", .dict
           [("agent_name", .str agent_name), ("domain", .str domain),
            ("upstream_changes_analyzed", .int upstream_changes.length)])]

/-- `OSAgent.analyze_upstream_impact(upstream_changes)`: logs and returns
the fixed pass-through result for every input. -/
def os_analyze_upstream_impact (upstream_changes : List PyVal) :
    List (String × PyVal) :=
  [("impacts", .list []), ("required_actions", .list []),
   ("risk_level", .str "LOW"),
   ("note", .str "OS Agent typically does not have upstream dependencies")]

/-- The cache file name `f"os_analysis_{cache_key}.json"` used by
`OSAgent._load_from_cache` / `_save_to_cache`. -/
def cacheFileName (cache_key : String) : String :=
  "os_analysis_" ++ cache_key ++ ".json"

/--
`OSAgent._load_from_cache(cache_key)`: `None` when caching is disabled or
the cache file does not exist, otherwise the parsed file content.  The
cache directory is modelled at the persistence boundary as a map from
file name to stored JSON document (`json.dump` then `json.load` is the
identity on the JSON-representable dicts the agent stores).
-/
def os_load_from_cache (enable_caching : Bool)
    (files : List (String × PyVal)) (cache_key : String) : Option PyVal :=
  if !enable_caching then Option.none
  else dictGet files (cacheFileName cache_key)

/-- `OSAgent._save_to_cache(cache_key, data)`: no-op when caching is
disabled, otherwise write `data` under the cache file name. -/
def os_save_to_cache (enable_caching : Bool)
    (files : List (String × PyVal)) (cache_key : String) (data : PyVal) :
    List (String × PyVal) :=
  if !enable_caching then files
  else dictSet files (cacheFileName cache_key) data

/-- Severity order of the spec (`CRITICAL > HIGH > MEDIUM > LOW`); used
only to state the spec's `risk_level` invariant, not by the source. -/
def sevRank : String → Nat
  | "CRITICAL" => 4
  | "HIGH" => 3
  | "MEDIUM" => 2
  | "LOW" => 1
  | _ => 0

/-- Modelled from the spec: "the most severe value present among
`impacts`" — the severity string of greatest `sevRank` among the
impacts' `severity` fields.  Spec-side comparator for the `risk_level`
invariant; the source computes no such value. -/
def specMostSevere (impacts : List PyVal) : String :=
  (impacts.filterMap (fun i =>
      match pyGetD i "severity" PyVal.none with
      | .str s => Option.some s
      | _ => Option.none)).foldl
    (fun acc s => if sevRank acc < sevRank s then s else acc) "LOW"

/-! ## Dictionary lemmas -/

theorem dictGet_dictSet_self {α : Type} (m : List (String × α)) (k : String) (v : α) :
    dictGet (dictSet m k v) k = Option.some v := by
  induction m with
  | nil => simp [dictGet, dictSet]
  | cons kv rest ih =>
      obtain ⟨k1, v1⟩ := kv
      by_cases h : k1 = k <;> simp [dictGet, dictSet, h, ih]

theorem dictGet_dictSet_ne {α : Type} (m : List (String × α)) (k k2 : String) (v : α)
    (h : k2 ≠ k) : dictGet (dictSet m k v) k2 = dictGet m k2 := by
  induction m with
  | nil => simp [dictGet, dictSet, Ne.symm h]
  | cons kv rest ih =>
      obtain ⟨k1, v1⟩ := kv
      by_cases h1 : k1 = k <;> by_cases h2 : k1 = k2 <;>
        simp_all [dictGet, dictSet]

theorem dictSet_fresh {α : Type} (m : List (String × α)) (k : String) (v : α)
    (h : k ∉ m.map Prod.fst) : dictSet m k v = m ++ [(k, v)] := by
  induction m with
  | nil => simp [dictSet]
  | cons kv rest ih =>
      obtain ⟨k1, v1⟩ := kv
      simp only [List.map_cons, List.mem_cons, not_or] at h
      simp [dictSet, Ne.symm h.1, ih h.2]

theorem dictGet_append_left {α : Type} (a b : List (String × α)) (k : String)
    (h : k ∉ (b.map Prod.fst)) : dictGet (a ++ b) k = dictGet a k := by
  induction a with
  | nil =>
      simp only [List.nil_append, dictGet]
      induction b with
      | nil => simp [dictGet]
      | cons kv rest ih =>
          obtain ⟨k1, v1⟩ := kv
          simp only [List.map_cons, List.mem_cons, not_or] at h
          simp [dictGet, Ne.symm h.1, ih h.2]
  | cons kv rest ih =>
      obtain ⟨k1, v1⟩ := kv
      by_cases h1 : k1 = k <;> simp [dictGet, h1, ih]

theorem dictGet_append_right {α : Type} (a b : List (String × α)) (k : String)
    (h : k ∉ (a.map Prod.fst)) : dictGet (a ++ b) k = dictGet b k := by
  induction a with
  | nil => simp
  | cons kv rest ih =>
      obtain ⟨k1, v1⟩ := kv
      simp only [List.map_cons, List.mem_cons, not_or] at h
      simp [dictGet, Ne.symm h.1, ih h.2]

theorem length_dictSet_of_mem {α : Type} (m : List (String × α)) (k : String) (v w : α)
    (h : dictGet m k = Option.some w) : (dictSet m k v).length = m.length := by
  induction m with
  | nil => simp [dictGet] at h
  | cons kv rest ih =>
      obtain ⟨k1, v1⟩ := kv
      by_cases h1 : k1 = k
      · simp [dictSet, h1]
      · simp only [dictGet, h1, if_false] at h
        simp [dictSet, h1, ih h]

/-! ## Propagation-engine lemmas -/

/-- With pairwise-distinct consumer names that are fresh for the
accumulator, the propagation loop appends one entry per consumer, in
registration order. -/
theorem propagateList_eq_append (ds : List Agent) (changes : PyVal) :
    ∀ acc : List (String × PyVal),
      (∀ d ∈ ds, d.name ∉ acc.map Prod.fst) →
      (ds.map Agent.name).Nodup →
      propagateList ds changes acc =
        acc ++ ds.map (fun d => (d.name, entryVal d changes)) := by
  induction ds with
  | nil => intro acc _ _; simp [propagateList]
  | cons d rest ih =>
      intro acc hfresh hnodup
      simp only [List.map_cons, List.nodup_cons] at hnodup
      have hdacc : d.name ∉ acc.map Prod.fst := hfresh d (List.mem_cons_self d rest)
      have hstep : dictSet acc d.name (entryVal d changes) =
          acc ++ [(d.name, entryVal d changes)] := dictSet_fresh _ _ _ hdacc
      have hfresh2 : ∀ d2 ∈ rest,
          d2.name ∉ (acc ++ [(d.name, entryVal d changes)]).map Prod.fst := by
        intro d2 hd2
        simp only [List.map_append, List.mem_append, List.map_cons, List.map_nil,
          List.mem_singleton, not_or]
        refine ⟨hfresh d2 (List.mem_cons_of_mem d hd2), ?_⟩
        intro hEq
        exact hnodup.1 (hEq ▸ List.mem_map_of_mem Agent.name hd2)
      calc propagateList (d :: rest) changes acc
          = propagateList rest changes (dictSet acc d.name (entryVal d changes)) := by
            simp [propagateList]
        _ = propagateList rest changes (acc ++ [(d.name, entryVal d changes)]) := by
            rw [hstep]
        _ = acc ++ [(d.name, entryVal d changes)] ++
              rest.map (fun d2 => (d2.name, entryVal d2 changes)) :=
            ih _ hfresh2 hnodup.2
        _ = acc ++ (d :: rest).map (fun d2 => (d2.name, entryVal d2 changes)) := by
            simp

/-- Looking a consumer up in the assembled mapping yields that consumer's
entry. -/
theorem dictGet_map_entry (ds : List Agent) (changes : PyVal) (d : Agent)
    (hmem : d ∈ ds) (hnodup : (ds.map Agent.name).Nodup) :
    dictGet (ds.map (fun d2 => (d2.name, entryVal d2 changes))) d.name =
      Option.some (entryVal d changes) := by
  induction ds with
  | nil => cases hmem
  | cons d1 rest ih =>
      simp only [List.map_cons, List.nodup_cons] at hnodup
      rcases List.mem_cons.mp hmem with rfl | hmem2
      · simp [dictGet]
      · have hne : d1.name ≠ d.name := by
          intro hEq
          exact hnodup.1 (hEq ▸ List.mem_map_of_mem Agent.name hmem2)
        simp only [List.map_cons, dictGet, hne, if_false]
        exact ih hmem2 hnodup.2

/-! ## Claims about the propagation engine -/

/--
C1.  Per-consumer failure isolation in `BaseAgent.propagate_to_downstream`:
when one consumer's `analyze_upstream_impact` raises, the returned mapping
still holds, for that consumer, the error-shaped entry
`{"error": str(e), "impacts": []}`, and every registered consumer (the
failing one included) has its computed entry in the mapping.  The whole
loop body is inside `try`/`except Exception`, so the embedded
`propagate_to_downstream` is total: the exception is never re-raised to
the caller.
-/
theorem propagate_isolates_consumer_failure (a : Agent) (changes : PyVal)
    (hnodup : (a.downstream.map Agent.name).Nodup)
    (d : Agent) (hmem : d ∈ a.downstream)
    (e : String) (herr : d.analyze changes = .error e) :
    dictGet (propagate_to_downstream a changes) d.name =
      Option.some (PyVal.dict [("error", .str e), ("impacts", .list [])]) ∧
    ∀ d2 ∈ a.downstream,
      dictGet (propagate_to_downstream a changes) d2.name =
        Option.some (entryVal d2 changes) := by
  have hne : ¬a.downstream.isEmpty := by
    cases h : a.downstream with
    | nil => rw [h] at hmem; cases hmem
    | cons x xs => simp
  have hprop : propagate_to_downstream a changes =
      a.downstream.map (fun d2 => (d2.name, entryVal d2 changes)) := by
    rw [propagate_to_downstream, if_neg hne]
    simpa using propagateList_eq_append a.downstream changes [] (by simp) hnodup
  have hall : ∀ d2 ∈ a.downstream,
      dictGet (propagate_to_downstream a changes) d2.name =
        Option.some (entryVal d2 changes) := by
    intro d2 hd2
    rw [hprop]
    exact dictGet_map_entry a.downstream changes d2 hd2 hnodup
  refine ⟨?_, hall⟩
  have hentry : entryVal d changes =
      PyVal.dict [("error", .str e), ("impacts", .list [])] := by
    obtain ⟨n, f, ds⟩ := d
    simp only [Agent.analyze] at herr
    simp [entryVal, herr]
  rw [hall d hmem, hentry]

/-- C1 witness: a producer with a failing consumer `B` and a succeeding
consumer `C`. -/
theorem propagate_isolates_consumer_failure_witness :
    dictGet
      (propagate_to_downstream
        (Agent.mk "A" (fun _ => .ok [])
          [Agent.mk "B" (fun _ => .error "boom") [],
           Agent.mk "C" (fun _ => .ok [("impacts", .list [])]) []])
        (.list [.int 1]))
      "B" =
      Option.some (PyVal.dict [("error", .str "boom"), ("impacts", .list [])]) ∧
    ∀ d2 ∈ (Agent.mk "A" (fun _ => .ok [])
          [Agent.mk "B" (fun _ => .error "boom") [],
           Agent.mk "C" (fun _ => .ok [("impacts", .list [])]) []]).downstream,
      dictGet
        (propagate_to_downstream
          (Agent.mk "A" (fun _ => .ok [])
            [Agent.mk "B" (fun _ => .error "boom") [],
             Agent.mk "C" (fun _ => .ok [("impacts", .list [])]) []])
          (.list [.int 1]))
        d2.name = Option.some (entryVal d2 (.list [.int 1])) :=
  propagate_isolates_consumer_failure
    (Agent.mk "A" (fun _ => .ok [])
      [Agent.mk "B" (fun _ => .error "boom") [],
       Agent.mk "C" (fun _ => .ok [("impacts", .list [])]) []])
    (.list [.int 1])
    (by simp [Agent.downstream, Agent.name])
    (Agent.mk "B" (fun _ => .error "boom") [])
    (by simp [Agent.downstream])
    "boom" rfl

/--
C2.  `BaseAgent.propagate_to_downstream` returns the empty mapping when
the producer has no registered downstream agents, and otherwise a mapping
whose keys are exactly the registered downstream agents' names, inserted
in registration order.
-/
theorem propagate_keys_are_downstream_names (a : Agent) (changes : PyVal)
    (hnodup : (a.downstream.map Agent.name).Nodup) :
    (a.downstream = [] → propagate_to_downstream a changes = []) ∧
    (propagate_to_downstream a changes).map Prod.fst =
      a.downstream.map Agent.name := by
  constructor
  · intro h
    simp [propagate_to_downstream, h]
  · by_cases h : a.downstream.isEmpty
    · rw [List.isEmpty_iff] at h
      simp [propagate_to_downstream, h]
    · rw [propagate_to_downstream, if_neg h]
      rw [propagateList_eq_append a.downstream changes [] (by simp) hnodup]
      simp

/-- C2 witness: a producer with two consumers, and separately a producer
with none. -/
theorem propagate_keys_are_downstream_names_witness :
    ((Agent.mk "A" (fun _ => .ok []) []).downstream = [] →
      propagate_to_downstream (Agent.mk "A" (fun _ => .ok []) []) (.list []) = []) ∧
    (propagate_to_downstream
        (Agent.mk "A" (fun _ => .ok [])
          [Agent.mk "B" (fun _ => .error "boom") [],
           Agent.mk "C" (fun _ => .ok []) []])
        (.list [])).map Prod.fst =
      (Agent.mk "A" (fun _ => .ok [])
          [Agent.mk "B" (fun _ => .error "boom") [],
           Agent.mk "C" (fun _ => .ok []) []]).downstream.map Agent.name :=
  ⟨(propagate_keys_are_downstream_names (Agent.mk "A" (fun _ => .ok []) [])
      (.list []) (by simp [Agent.downstream, Agent.name])).1,
   (propagate_keys_are_downstream_names
      (Agent.mk "A" (fun _ => .ok [])
        [Agent.mk "B" (fun _ => .error "boom") [],
         Agent.mk "C" (fun _ => .ok []) []])
      (.list []) (by simp [Agent.downstream, Agent.name])).2⟩

/-! ## Claims about the concrete agents' `analyze_upstream_impact` -/

/--
C3.  Every concrete agent (OS, Kubernetes, Database) returns
`risk_level = 'LOW'` and `impacts = []` on an empty list of upstream
changes, whatever the external oracles would answer; the empty-input
branch runs before any external call and the embedded functions are
total, so no error is raised.
-/
theorem analyze_upstream_impact_empty_is_low (an dom content : String)
    (ds : List Agent) (parse : Except String (List (String × PyVal)))
    (srcs : List String) (upstream : List PyVal) :
    dictGet (kubernetes_analyze_upstream_impact an dom ds content parse srcs [])
        "risk_level" = Option.some (.str "LOW") ∧
    dictGet (kubernetes_analyze_upstream_impact an dom ds content parse srcs [])
        "impacts" = Option.some (.list []) ∧
    dictGet (database_analyze_upstream_impact an dom parse [])
        "risk_level" = Option.some (.str "LOW") ∧
    dictGet (database_analyze_upstream_impact an dom parse [])
        "impacts" = Option.some (.list []) ∧
    dictGet (os_analyze_upstream_impact upstream)
        "risk_level" = Option.some (.str "LOW") ∧
    dictGet (os_analyze_upstream_impact upstream)
        "impacts" = Option.some (.list []) :=
  ⟨rfl, rfl, rfl, rfl, rfl, rfl⟩

/--
C4.  `BaseAgent.register_downstream` is idempotent: registering the same
downstream agent twice leaves the list — in particular its length —
exactly as after the first call, so no duplicate edge is created.
-/
theorem register_downstream_idempotent {α : Type} [DecidableEq α]
    (ds : List α) (a : α) :
    register_downstream (register_downstream ds a) a = register_downstream ds a ∧
    (register_downstream (register_downstream ds a) a).length =
      (register_downstream ds a).length := by
  have hmem : a ∈ register_downstream ds a := by
    rw [register_downstream]
    split_ifs with h
    · exact h
    · simp
  have heq : register_downstream (register_downstream ds a) a =
      register_downstream ds a := by
    rw [register_downstream, if_pos hmem]
  exact ⟨heq, by rw [heq]⟩

/-! ## Claim about `AgentRegistry.register` (duplicate names) -/

/--
C5 counterexample.  With agent `1` already registered under the name
`"A"`, registering agent `2` under the same name does not fail:
`AgentRegistry.register` returns normally and the registry now maps
`"A"` to the new agent — the claimed error is never raised and the
existing registration is silently replaced.
-/
theorem registry_register_duplicate_name_no_error :
    AgentRegistry.register [("A", (1 : Nat))] "A" 2 = .ok [("A", 2)] := rfl

/--
C5 (amended).  When an agent is already registered under name `N`,
`AgentRegistry.register` with another agent of the same name succeeds and
silently replaces the existing registration: the result is the registry
with `N` rebound, `get_agent N` returns the new agent, and the number of
registered agents is unchanged.
-/
theorem registry_register_duplicate_name_replaces {α : Type}
    (r : List (String × α)) (N : String) (old fresh : α)
    (h : dictGet r N = Option.some old) :
    AgentRegistry.register r N fresh = .ok (dictSet r N fresh) ∧
    AgentRegistry.get_agent (dictSet r N fresh) N = Option.some fresh ∧
    (dictSet r N fresh).length = r.length :=
  ⟨rfl, dictGet_dictSet_self r N fresh, length_dictSet_of_mem r N fresh old h⟩

/-- C5 witness: replacing the registration of `"A"`. -/
theorem registry_register_duplicate_name_replaces_witness :
    AgentRegistry.register [("A", (1 : Nat))] "A" 2 = .ok (dictSet [("A", 1)] "A" 2) ∧
    AgentRegistry.get_agent (dictSet [("A", (1 : Nat))] "A" 2) "A" = Option.some 2 ∧
    (dictSet [("A", (1 : Nat))] "A" 2).length = [("A", (1 : Nat))].length :=
  registry_register_duplicate_name_replaces [("A", 1)] "A" 1 2 rfl

/-! ## Claim about the Kubernetes agent's `risk_level` invariant -/

/-- The parsed reasoning output of the C6 counterexample: one impact of
severity `CRITICAL`, while the model's own `risk_assessment.overall_risk`
says `LOW`. -/
def c6Parsed : List (String × PyVal) :=
  [("impacts", .list [.dict
      [("k8s_component", .str "kubelet"),
       ("severity", .str "CRITICAL"),
       ("required_actions", .list [])]]),
   ("risk_assessment", .dict [("overall_risk", .str "LOW")])]

/-- The Kubernetes agent's result on the C6 counterexample input. -/
def c6Result : List (String × PyVal) :=
  kubernetes_analyze_upstream_impact "kubernetes_agent" "kubernetes" [] "raw"
    (.ok c6Parsed) [] [.dict [("component", .str "glibc")]]

/--
C6 counterexample.  On a successfully parsed reasoning output whose
single impact has severity `CRITICAL` but whose
`risk_assessment.overall_risk` field says `LOW`, the returned
`risk_level` is `LOW`, not the most severe severity among the returned
impacts (`CRITICAL`): the code copies the model's overall-risk field and
never computes the most severe impact severity.
-/
theorem kubernetes_risk_level_not_most_severe :
    dictGet c6Result "risk_level" = Option.some (.str "LOW") ∧
    specMostSevere (pyElems (dictGetD c6Result "impacts" (.list []))) =
      "CRITICAL" ∧
    ("LOW" : String) ≠ "CRITICAL" :=
  ⟨rfl, rfl, by decide⟩

/--
C6 (amended).  For a non-empty upstream list: when parsing of the
reasoning output fails, the returned `risk_level` is `UNKNOWN`; when it
succeeds (with `risk_assessment` absent or a dict, the shape on which the
source's `.get` chain is defined), the returned `risk_level` is the
parsed output's `risk_assessment.overall_risk` value, defaulting to
`MEDIUM` — it is not derived from the impacts' severities.
-/
theorem kubernetes_risk_level_from_risk_assessment (an dom content : String)
    (ds : List Agent) (srcs : List String)
    (upstream : List PyVal) (hne : upstream ≠ []) :
    (∀ e, dictGet
        (kubernetes_analyze_upstream_impact an dom ds content (.error e) srcs upstream)
        "risk_level" = Option.some (.str "UNKNOWN")) ∧
    (∀ k, (dictGet k "risk_assessment" = Option.none ∨
          ∃ ra, dictGet k "risk_assessment" = Option.some (.dict ra)) →
      dictGet
        (kubernetes_analyze_upstream_impact an dom ds content (.ok k) srcs upstream)
        "risk_level" =
        Option.some
          (pyGetD (dictGetD k "risk_assessment" (.dict []))
            "overall_risk" (.str "MEDIUM"))) := by
  have hempty : upstream.isEmpty = false := by
    cases upstream with
    | nil => exact absurd rfl hne
    | cons x xs => rfl
  constructor
  · intro e
    simp [kubernetes_analyze_upstream_impact, hempty, dictGet]
  · intro k _
    rw [kubernetes_analyze_upstream_impact]
    simp only [hempty, Bool.false_eq_true, if_false]
    split
    · rw [dictGet_dictSet_ne _ _ _ _ (by decide)]
      simp [dictGet]
    · simp [dictGet]

/-- C6 witness: a failing parse and the `c6Parsed` output on a singleton
upstream list. -/
theorem kubernetes_risk_level_from_risk_assessment_witness :
    (∀ e, dictGet
        (kubernetes_analyze_upstream_impact "kubernetes_agent" "kubernetes" []
          "raw" (.error e) [] [.dict [("component", .str "glibc")]])
        "risk_level" = Option.some (.str "UNKNOWN")) ∧
    (∀ k, (dictGet k "risk_assessment" = Option.none ∨
          ∃ ra, dictGet k "risk_assessment" = Option.some (.dict ra)) →
      dictGet
        (kubernetes_analyze_upstream_impact "kubernetes_agent" "kubernetes" []
          "raw" (.ok k) [] [.dict [("component", .str "glibc")]])
        "risk_level" =
        Option.some
          (pyGetD (dictGetD k "risk_assessment" (.dict []))
            "overall_risk" (.str "MEDIUM"))) :=
  kubernetes_risk_level_from_risk_assessment "kubernetes_agent" "kubernetes"
    "raw" [] [] [.dict [("component", .str "glibc")]] (by simp)

/-! ## Claims about the credential-failover executor -/

/--
C7.  With one fallback key (two credentials in total), a
quota-classified failure on the first attempt followed by a success on
the second makes `execute_with_fallback` return the successful result —
only the first two invocations of the callable are consulted — and leaves
the config's active key (`current_api_key` / `get_active_api_key`) on the
fallback credential, with the fallback pool emptied.
-/
theorem execute_with_fallback_failover {α : Type} (cfg : Config) (k2 q : String)
    (r : α) (call : Nat → Except String α)
    (hf : cfg.fallback_api_keys = [k2])
    (hq : isCredentialError q = true)
    (h0 : call 0 = .error q) (h1 : call 1 = .ok r) :
    execute_with_fallback cfg call =
      (.ok r, { openai_api_key := Option.some k2,
                current_api_key := Option.some k2,
                fallback_api_keys := [] }) ∧
    (execute_with_fallback cfg call).2.get_active_api_key = Option.some k2 := by
  have h : execute_with_fallback cfg call =
      (.ok r, { openai_api_key := Option.some k2,
                current_api_key := Option.some k2,
                fallback_api_keys := [] }) := by
    rw [execute_with_fallback, hf]
    simp [ewfGo, h0, h1, hq, Config.switch_to_fallback_key, hf]
  refine ⟨h, ?_⟩
  rw [h]
  rfl

/-- C7 witness: a quota error with one fallback key, then success. -/
theorem execute_with_fallback_failover_witness :
    execute_with_fallback (Config.mk (Option.some "k1") (Option.some "k1") ["k2"])
      (fun i => if i = 0 then .error "quota exceeded" else .ok (7 : Nat)) =
      (.ok 7, { openai_api_key := Option.some "k2",
                current_api_key := Option.some "k2",
                fallback_api_keys := [] }) ∧
    (execute_with_fallback (Config.mk (Option.some "k1") (Option.some "k1") ["k2"])
      (fun i => if i = 0 then .error "quota exceeded" else .ok (7 : Nat))).2.get_active_api_key =
      Option.some "k2" :=
  execute_with_fallback_failover
    (Config.mk (Option.some "k1") (Option.some "k1") ["k2"]) "k2" "quota exceeded" 7
    (fun i => if i = 0 then .error "quota exceeded" else .ok (7 : Nat))
    rfl (by decide) rfl rfl

/-! ## Claim about the OS agent's response cache -/

/--
C9.  With caching enabled, `_save_to_cache(k, v)` followed by
`_load_from_cache(k)` returns the saved value, and `_load_from_cache` on
a key that was never stored returns `None` — a not-found indication, not
an error (the embedded load is total, mirroring the source's swallowed
read failures).
-/
theorem cache_put_get_roundtrip (files : List (String × PyVal)) (k k2 : String)
    (v : PyVal) (h2 : dictGet files (cacheFileName k2) = Option.none) :
    os_load_from_cache true (os_save_to_cache true files k v) k = Option.some v ∧
    os_load_from_cache true files k2 = Option.none := by
  constructor
  · simp [os_load_from_cache, os_save_to_cache, dictGet_dictSet_self]
  · simp [os_load_from_cache, h2]

/-- C9 witness: save then load on an empty cache directory, and a lookup
of an absent key. -/
theorem cache_put_get_roundtrip_witness :
    os_load_from_cache true
        (os_save_to_cache true [] "deadbeef" (.dict [("risk_level", .str "HIGH")]))
        "deadbeef" =
      Option.some (.dict [("risk_level", .str "HIGH")]) ∧
    os_load_from_cache true [] "cafebabe" = Option.none :=
  cache_put_get_roundtrip [] "deadbeef" "cafebabe"
    (.dict [("risk_level", .str "HIGH")]) rfl

/-! ## Claim about destructive consumption of the fallback pool -/

/-- Every execution of the failover loop leaves the fallback pool a
suffix of the pool it started from: keys are only ever popped from the
front, never re-added. -/
theorem ewfGo_fallback_suffix {α : Type} (call : Nat → Except String α) :
    ∀ (fuel idx : Nat) (cfg : Config) (last : Option String),
      List.IsSuffix (ewfGo call fuel idx cfg last).2.fallback_api_keys
        cfg.fallback_api_keys := by
  intro fuel
  induction fuel with
  | zero => intro idx cfg last; exact List.suffix_refl _
  | succ n ih =>
      intro idx cfg last
      rw [ewfGo]
      cases call idx with
      | ok r => exact List.suffix_refl _
      | error e =>
          simp only
          split
          · rcases hs : cfg.switch_to_fallback_key with ⟨b, cfg2⟩
            cases b with
            | true =>
                have hsuf : List.IsSuffix cfg2.fallback_api_keys
                    cfg.fallback_api_keys := by
                  rw [Config.switch_to_fallback_key] at hs
                  rcases hfb : cfg.fallback_api_keys with _ | ⟨k, rest⟩
                  · rw [hfb] at hs; cases hs
                  · rw [hfb] at hs
                    simp only [Prod.mk.injEq] at hs
                    rw [← hs.2]
                    exact List.suffix_cons k rest
                simp only [hs]
                exact (ih (idx + 1) cfg2 (Option.some e)).trans hsuf
            | false =>
                have hc : cfg2 = cfg := by
                  rw [Config.switch_to_fallback_key] at hs
                  rcases hfb : cfg.fallback_api_keys with _ | ⟨k, rest⟩
                  · rw [hfb] at hs
                    simp only [Prod.mk.injEq] at hs
                    exact hs.2.symm
                  · rw [hfb] at hs; cases hs
                simp only [hs, hc]
                exact List.suffix_refl _
          · exact List.suffix_refl _

/--
C10.  The fallback credential pool is consumed destructively and
monotonically: a successful `switch_to_fallback_key` pops the first
fallback key (the pool strictly shrinks by one) and installs it as the
active key; a failed switch leaves the config untouched; and the pool
left behind by any `execute_with_fallback` run is a suffix of the
initial pool — no operation ever adds a key back, so each fallback
credential rotates in at most once and every later call's retry budget
(`1 +` remaining pool size) stays permanently reduced.
-/
theorem fallback_pool_consumed_monotonically :
    (∀ cfg cfg2 : Config, cfg.switch_to_fallback_key = (true, cfg2) →
      ∃ k, cfg.fallback_api_keys = k :: cfg2.fallback_api_keys ∧
        cfg2.current_api_key = Option.some k ∧
        cfg2.fallback_api_keys.length + 1 = cfg.fallback_api_keys.length) ∧
    (∀ cfg cfg2 : Config, cfg.switch_to_fallback_key = (false, cfg2) →
      cfg2 = cfg) ∧
    (∀ (α : Type) (cfg : Config) (call : Nat → Except String α),
      List.IsSuffix (execute_with_fallback cfg call).2.fallback_api_keys
        cfg.fallback_api_keys) := by
  refine ⟨?_, ?_, ?_⟩
  · intro cfg cfg2 hs
    rw [Config.switch_to_fallback_key] at hs
    rcases hfb : cfg.fallback_api_keys with _ | ⟨k, rest⟩
    · rw [hfb] at hs; cases hs
    · rw [hfb] at hs
      simp only [Prod.mk.injEq] at hs
      refine ⟨k, ?_, ?_, ?_⟩ <;> rw [← hs.2] <;> simp [hfb]
  · intro cfg cfg2 hs
    rw [Config.switch_to_fallback_key] at hs
    rcases hfb : cfg.fallback_api_keys with _ | ⟨k, rest⟩
    · rw [hfb] at hs
      simp only [Prod.mk.injEq] at hs
      exact hs.2.symm
    · rw [hfb] at hs; cases hs
  · intro α cfg call
    exact ewfGo_fallback_suffix call _ 0 cfg Option.none

/-- C10 witness: one successful switch, one failed switch, and a full
executor run that exhausts the single fallback key. -/
theorem fallback_pool_consumed_monotonically_witness :
    (∃ k, (Config.mk (Option.some "a") (Option.some "a") ["f1"]).fallback_api_keys =
        k :: (Config.mk (Option.some "f1") (Option.some "f1") []).fallback_api_keys ∧
      (Config.mk (Option.some "f1") (Option.some "f1") []).current_api_key =
        Option.some k ∧
      (Config.mk (Option.some "f1") (Option.some "f1") []).fallback_api_keys.length + 1 =
        (Config.mk (Option.some "a") (Option.some "a") ["f1"]).fallback_api_keys.length) ∧
    (Config.mk (Option.some "a") (Option.some "a") [] : Config) =
      Config.mk (Option.some "a") (Option.some "a") [] ∧
    List.IsSuffix
      (execute_with_fallback (Config.mk (Option.some "a") (Option.some "a") ["f1"])
        (fun _ => (.error "quota" : Except String Nat))).2.fallback_api_keys
      (Config.mk (Option.some "a") (Option.some "a") ["f1"]).fallback_api_keys :=
  ⟨fallback_pool_consumed_monotonically.1
      (Config.mk (Option.some "a") (Option.some "a") ["f1"])
      (Config.mk (Option.some "f1") (Option.some "f1") []) rfl,
   fallback_pool_consumed_monotonically.2.1
      (Config.mk (Option.some "a") (Option.some "a") [])
      (Config.mk (Option.some "a") (Option.some "a") []) rfl,
   fallback_pool_consumed_monotonically.2.2 Nat
      (Config.mk (Option.some "a") (Option.some "a") ["f1"])
      (fun _ => (.error "quota" : Except String Nat))⟩

/-! ## Claim characterising the failover executor's error behaviour -/

/-- A credential-classified failure outcome. -/
def credFail {α : Type} (o : Except String α) : Prop :=
  ∃ e, o = .error e ∧ isCredentialError e = true

theorem forallLtSucc (P : Nat → Prop) (n : Nat) :
    (∀ i, i < n + 1 → P i) ↔ P 0 ∧ ∀ i, i < n → P (i + 1) := by
  constructor
  · intro h
    exact ⟨h 0 (Nat.succ_pos n), fun i hi => h (i + 1) (Nat.succ_lt_succ hi)⟩
  · rintro ⟨h0, h⟩ i hi
    cases i with
    | zero => exact h0
    | succ j => exact h j (Nat.lt_of_succ_lt_succ hi)

theorem ewfGo_error_iff {α : Type} (call : Nat → Except String α) :
    ∀ (fb : List String) (idx : Nat) (cfg : Config) (last : Option String) (E : String),
      cfg.fallback_api_keys = fb →
      ((ewfGo call (fb.length + 1) idx cfg last).1 = .error E ↔
        (∃ n, n ≤ fb.length ∧ (∀ i, i < n → credFail (call (idx + i))) ∧
          call (idx + n) = .error E ∧ isCredentialError E = false) ∨
        (E = "All API keys exhausted" ∧
          (∀ i, i < fb.length → credFail (call (idx + i))) ∧
          credFail (call (idx + fb.length)))) := by
  intro fb
  induction fb with
  | nil =>
      intro idx cfg last E hfb
      rw [ewfGo]
      cases hc : call idx with
      | ok r =>
          simp only [List.length_nil]
          constructor
          · intro h; cases h
          · rintro (⟨n, hn, _, hcall, _⟩ | ⟨_, _, e, hcall, _⟩)
            · have : n = 0 := Nat.le_zero.mp hn
              subst this
              rw [Nat.add_zero, hc] at hcall; cases hcall
            · rw [Nat.add_zero, hc] at hcall; cases hcall
      | error e =>
          by_cases hic : isCredentialError e = true
          · have hsw : cfg.switch_to_fallback_key = (false, cfg) := by
              rw [Config.switch_to_fallback_key, hfb]
            simp only [hic, if_true, hsw, List.length_nil]
            constructor
            · intro h
              have hE : E = "All API keys exhausted" := by
                cases h; rfl
              exact Or.inr ⟨hE, fun i hi => absurd hi (Nat.not_lt_zero i),
                ⟨e, by rw [Nat.add_zero, hc], hic⟩⟩
            · rintro (⟨n, hn, _, hcall, hnc⟩ | ⟨hE, _, _⟩)
              · have : n = 0 := Nat.le_zero.mp hn
                subst this
                rw [Nat.add_zero, hc] at hcall
                cases hcall
                rw [hic] at hnc; cases hnc
              · subst hE; rfl
          · have hic2 : isCredentialError e = false := by
              cases h : isCredentialError e
              · rfl
              · exact absurd h hic
            simp only [hic2, Bool.false_eq_true, if_false, List.length_nil]
            constructor
            · intro h
              have hE : e = E := by cases h; rfl
              subst hE
              exact Or.inl ⟨0, Nat.le_refl 0, fun i hi => absurd hi (Nat.not_lt_zero i),
                by rw [Nat.add_zero, hc], hic2⟩
            · rintro (⟨n, hn, _, hcall, _⟩ | ⟨_, _, e2, hcall, hce⟩)
              · have : n = 0 := Nat.le_zero.mp hn
                subst this
                rw [Nat.add_zero, hc] at hcall
                cases hcall; rfl
              · rw [Nat.add_zero, hc] at hcall
                cases hcall
                rw [hic2] at hce; cases hce
  | cons k rest ih =>
      intro idx cfg last E hfb
      have hlen : (k :: rest).length + 1 = (rest.length + 1) + 1 := by simp
      rw [hlen, ewfGo]
      cases hc : call idx with
      | ok r =>
          constructor
          · intro h; cases h
          · rintro (⟨n, hn, hpre, hcall, _⟩ | ⟨_, hpre, e, hcall, _⟩)
            · cases n with
              | zero => rw [Nat.add_zero, hc] at hcall; cases hcall
              | succ m =>
                  rcases hpre 0 (Nat.succ_pos m) with ⟨e, hcall0, _⟩
                  rw [Nat.add_zero, hc] at hcall0; cases hcall0
            · rcases hpre 0 (by simp) with ⟨e2, hcall0, _⟩
              rw [Nat.add_zero, hc] at hcall0; cases hcall0
      | error e =>
          by_cases hic : isCredentialError e = true
          · have hsw : cfg.switch_to_fallback_key =
                (true, { openai_api_key := Option.some k,
                         current_api_key := Option.some k,
                         fallback_api_keys := rest }) := by
              rw [Config.switch_to_fallback_key, hfb]
            simp only [hic, if_true, hsw]
            rw [ih (idx + 1) _ (Option.some e) E rfl]
            have hcf0 : credFail (call idx) := ⟨e, by rw [hc], hic⟩
            have harith : ∀ j : Nat, idx + 1 + j = idx + (j + 1) := by
              intro j; omega
            constructor
            · rintro (⟨m, hm, hpre, hcall, hnc⟩ | ⟨hE, hpre, hlast⟩)
              · refine Or.inl ⟨m + 1, Nat.succ_le_succ hm, ?_, ?_, hnc⟩
                · rw [forallLtSucc]
                  refine ⟨by rw [Nat.add_zero]; exact hcf0, ?_⟩
                  intro i hi
                  rw [← harith i]
                  exact hpre i hi
                · rw [← harith m]; exact hcall
              · refine Or.inr ⟨hE, ?_, ?_⟩
                · simp only [List.length_cons]
                  rw [forallLtSucc]
                  refine ⟨by rw [Nat.add_zero]; exact hcf0, ?_⟩
                  intro i hi
                  rw [← harith i]
                  exact hpre i hi
                · simp only [List.length_cons]
                  rw [← harith rest.length]
                  exact hlast
            · rintro (⟨n, hn, hpre, hcall, hnc⟩ | ⟨hE, hpre, hlast⟩)
              · cases n with
                | zero =>
                    rw [Nat.add_zero, hc] at hcall
                    cases hcall
                    rw [hic] at hnc; cases hnc
                | succ m =>
                    refine Or.inl ⟨m, Nat.lt_succ_iff.mp (Nat.lt_of_succ_le hn), ?_, ?_, hnc⟩
                    · intro i hi
                      rw [harith i]
                      exact hpre (i + 1) (Nat.succ_lt_succ hi)
                    · rw [harith m]; exact hcall
              · simp only [List.length_cons] at hpre hlast
                rw [forallLtSucc] at hpre
                refine Or.inr ⟨hE, ?_, ?_⟩
                · intro i hi
                  rw [harith i]
                  exact hpre.2 i hi
                · rw [harith rest.length]
                  exact hlast
          · have hic2 : isCredentialError e = false := by
              cases h : isCredentialError e
              · rfl
              · exact absurd h hic
            simp only [hic2, Bool.false_eq_true, if_false]
            constructor
            · intro h
              have hE : e = E := by cases h; rfl
              subst hE
              exact Or.inl ⟨0, Nat.zero_le _, fun i hi => absurd hi (Nat.not_lt_zero i),
                by rw [Nat.add_zero, hc], hic2⟩
            · rintro (⟨n, hn, hpre, hcall, hnc⟩ | ⟨_, hpre, hlast⟩)
              · cases n with
                | zero =>
                    rw [Nat.add_zero, hc] at hcall
                    cases hcall; rfl
                | succ m =>
                    rcases hpre 0 (Nat.succ_pos m) with ⟨e2, hcall0, hce2⟩
                    rw [Nat.add_zero, hc] at hcall0
                    cases hcall0
                    rw [hic2] at hce2; cases hce2
              · rcases hpre 0 (by simp) with ⟨e2, hcall0, hce2⟩
                rw [Nat.add_zero, hc] at hcall0
                cases hcall0
                rw [hic2] at hce2; cases hce2

theorem ewfGo_congr {α : Type} (call call2 : Nat → Except String α) :
    ∀ (fuel idx : Nat) (cfg : Config) (last : Option String),
      (∀ i, idx ≤ i → i < idx + fuel → call i = call2 i) →
      ewfGo call fuel idx cfg last = ewfGo call2 fuel idx cfg last := by
  intro fuel
  induction fuel with
  | zero => intro idx cfg last _; rfl
  | succ n ih =>
      intro idx cfg last h
      rw [ewfGo, ewfGo, h idx (Nat.le_refl idx) (by omega)]
      cases call2 idx with
      | ok r => rfl
      | error e =>
          simp only
          split
          · rcases cfg.switch_to_fallback_key with ⟨b, cfg2⟩
            cases b with
            | true => exact ih (idx + 1) cfg2 (Option.some e) (fun i h1 h2 => h i (by omega) (by omega))
            | false => rfl
          · rfl

/--
C8.  Error behaviour of `execute_with_fallback`: the call raises with
message `E` exactly when either (a) after some run of credential-classified
failures, an attempt fails with an error containing none of the
credential markers — that error is re-raised as is — or (b) every
attempt, the first included, fails credential-classified until the
fallback pool is exhausted, raising `"All API keys exhausted"`; and the
outcome depends only on the first `1 + len(fallback_api_keys)` attempt
outcomes, so the number of attempts never exceeds that bound (with zero
fallback keys, case (b) at `n = 0` is the single-attempt exhaustion).
-/
theorem execute_with_fallback_error_characterization {α : Type} (cfg : Config)
    (call call2 : Nat → Except String α) (E : String) :
    ((execute_with_fallback cfg call).1 = .error E ↔
      (∃ n, n ≤ cfg.fallback_api_keys.length ∧
        (∀ i, i < n → credFail (call i)) ∧
        call n = .error E ∧ isCredentialError E = false) ∨
      (E = "All API keys exhausted" ∧
        (∀ i, i < cfg.fallback_api_keys.length → credFail (call i)) ∧
        credFail (call cfg.fallback_api_keys.length))) ∧
    ((∀ i, i < 1 + cfg.fallback_api_keys.length → call i = call2 i) →
      execute_with_fallback cfg call = execute_with_fallback cfg call2) := by
  constructor
  · have h := ewfGo_error_iff call cfg.fallback_api_keys 0 cfg Option.none E rfl
    rw [execute_with_fallback, Nat.add_comm 1 cfg.fallback_api_keys.length]
    simpa using h
  · intro h
    rw [execute_with_fallback, execute_with_fallback]
    exact ewfGo_congr call call2 _ 0 cfg Option.none
      (fun i h1 h2 => h i (by omega))

/-- C8 witness: with zero fallback keys, a quota-classified failure on
the only credential raises after the single attempt, and the outcome
ignores every attempt outcome beyond the first. -/
theorem execute_with_fallback_error_characterization_witness :
    (execute_with_fallback (Config.mk (Option.some "k1") (Option.some "k1") [])
        (fun _ => (.error "quota hit" : Except String Nat))).1 =
      .error "All API keys exhausted" ∧
    execute_with_fallback (Config.mk (Option.some "k1") (Option.some "k1") [])
        (fun _ => (.error "quota hit" : Except String Nat)) =
      execute_with_fallback (Config.mk (Option.some "k1") (Option.some "k1") [])
        (fun i => if i = 0 then (.error "quota hit" : Except String Nat) else .ok 9) :=
  ⟨(execute_with_fallback_error_characterization
      (Config.mk (Option.some "k1") (Option.some "k1") [])
      (fun _ => (.error "quota hit" : Except String Nat))
      (fun i => if i = 0 then (.error "quota hit" : Except String Nat) else .ok 9)
      "All API keys exhausted").1.mpr
    (Or.inr ⟨rfl, fun i hi => absurd hi (by simp),
      ⟨"quota hit", rfl, by decide⟩⟩),
   (execute_with_fallback_error_characterization
      (Config.mk (Option.some "k1") (Option.some "k1") [])
      (fun _ => (.error "quota hit" : Except String Nat))
      (fun i => if i = 0 then (.error "quota hit" : Except String Nat) else .ok 9)
      "All API keys exhausted").2
    (fun i hi => by
      have hi1 : i < 1 := by simpa using hi
      have hi0 : i = 0 := by omega
      subst hi0
      rfl)⟩
